import Mathlib

/-!
A shallow embedding of the Bloblang runtime core of the benthos repository:
the value model and strict extractors (`internal/bloblang/query/type_helpers.go`),
the arithmetic / comparison resolver (`internal/bloblang/query/arithmetic.go`),
the public `ArgSpec` argument validator (`public/bloblang/arguments.go`), and a
spec-modelled mapping executor (its Go implementation is not among the provided
sources; only `internal/bloblang/mapping/executor_test.go` is).

Modelling conventions:
* Go `float64` is modelled as `Rat`.  Every claim settled here depends only on
  exact control flow over floats (type dispatch, comparison with zero, exact
  truncation), never on rounding, so the rational model is faithful for these
  claims.
* Go `int64` is modelled as `Int`; the wrapping of two's-complement overflow is
  applied explicitly (`wrap64`) where the Go code multiplies/adds/subtracts.
  Go `uint64` is modelled as `Nat` (values produced by the runtime are < 2^64).
* Go `[]byte` is carried as its string contents (`Value.vBytes`): the runtime
  treats bytes and strings interchangeably (`IGetString` converts directly) and
  no claim distinguishes byte-level representation.
* `json.Number` does not appear as a `Value` variant: `ISanitize` (which every
  arithmetic path applies, and which the message codec applies on decode)
  converts `json.Number` to `int64`/`float64`/`string`, so sanitized runtime
  values never carry it.  The Go branches on `json.Number` are therefore dead
  on the value domain modelled here.
* Go objects (`map[string]interface{}`) are modelled as association lists held
  in a canonical key order, so structural list equality coincides with Go's
  key-order-independent `cmp.Equal` on maps.
* The Go `error` results of the query package are modelled by `EvalErr`;
  fallible functions return `Except`.
-/

/-- Discrete value types, mirroring `ValueType` in `type_helpers.go`. -/
inductive ValueType where
  | string
  | bytes
  | number
  | bool
  | array
  | object
  | null
  | delete
  | nothing
  | unknown
deriving DecidableEq, Repr

/-- The boxed runtime value (`interface{}` restricted to the sanitized domain
listed in `ISanitize`'s documentation): string, []byte, int64, uint64, float64,
bool, []interface{}, map[string]interface{}, Delete, Nothing, nil. -/
inductive Value where
  | vString (s : String)
  | vBytes (s : String)
  | vInt (n : Int)
  | vUInt (n : Nat)
  | vFloat (q : Rat)
  | vBool (b : Bool)
  | vArray (xs : List Value)
  | vObject (kvs : List (String × Value))
  | vNull
  | vDelete
  | vNothing
deriving Repr

/-- `ITypeOf` from `type_helpers.go` (Go `int`, `int64`, `uint64`, `float64`
all answer `ValueNumber`). -/
def ITypeOf : Value → ValueType
  | .vString _ => .string
  | .vBytes _ => .bytes
  | .vInt _ => .number
  | .vUInt _ => .number
  | .vFloat _ => .number
  | .vBool _ => .bool
  | .vArray _ => .array
  | .vObject _ => .object
  | .vDelete => .delete
  | .vNothing => .nothing
  | .vNull => .null

/-- Evaluation errors produced by the query package.  `typeError` carries the
actual type and the expected set exactly as `NewTypeError(v, expected...)`
does; `divideByZero` is `ErrDivideByZero`; `msg` stands for the remaining
`fmt.Errorf`-style errors (whose text no claim inspects). -/
inductive EvalErr where
  | typeError (actual : ValueType) (expected : List ValueType)
  | divideByZero
  | msg (s : String)
deriving DecidableEq, Repr

/-- `NewTypeError(v, expected...)` records the actual type of the offending
value together with the expected candidates. -/
def NewTypeError (v : Value) (expected : List ValueType) : EvalErr :=
  .typeError (ITypeOf v) expected

/-- `ISanitize` from `type_helpers.go`.  On the sanitized value domain of this
embedding every variant is already in the accepted type switch (`string,
[]byte, int64, uint64, float64, bool, []interface{}, map[string]interface{},
Delete, Nothing`) or is `nil` (which falls through to `return nil`), so each
branch returns its input unchanged. -/
def ISanitize : Value → Value
  | .vString s => .vString s
  | .vBytes s => .vBytes s
  | .vInt n => .vInt n
  | .vUInt n => .vUInt n
  | .vFloat q => .vFloat q
  | .vBool b => .vBool b
  | .vArray xs => .vArray xs
  | .vObject kvs => .vObject kvs
  | .vDelete => .vDelete
  | .vNothing => .vNothing
  | .vNull => .vNull

/-- Reinterpret a Go `uint64` bit pattern as an `int64`, as the conversion
`int64(t)` in Go does. -/
def uintAsInt64 (n : Nat) : Int :=
  if n < 2 ^ 63 then (n : Int) else (n : Int) - 2 ^ 64

/-- Two's-complement wrap of an integer result into the `int64` range, the
implicit behaviour of Go's `int64` arithmetic. -/
def wrap64 (n : Int) : Int :=
  (n + 2 ^ 63) % 2 ^ 64 - 2 ^ 63

/-- Truncation of a rational toward zero, the behaviour of Go's `int64(f)`
conversion on a `float64` value (within range). -/
def ratTrunc (q : Rat) : Int :=
  if 0 ≤ q.num then (q.num.toNat / q.den : Nat) else -((((-q.num).toNat / q.den : Nat) : Int))

/-- `IGetNumber` from `type_helpers.go`: extract a `float64` from `int`,
`int64`, `uint64` or `float64`, else a type error expecting a number. -/
def IGetNumber : Value → Except EvalErr Rat
  | .vInt n => .ok (n : Rat)
  | .vUInt n => .ok (n : Rat)
  | .vFloat q => .ok q
  | v => .error (NewTypeError v [.number])

/-- `IGetInt` from `type_helpers.go`: extract an `int64`; a `uint64` is
reinterpreted (`int64(t)`), a `float64` is truncated toward zero
(`int64(t)`); anything else is a type error expecting a number. -/
def IGetInt : Value → Except EvalErr Int
  | .vInt n => .ok n
  | .vUInt n => .ok (uintAsInt64 n)
  | .vFloat q => .ok (ratTrunc q)
  | v => .error (NewTypeError v [.number])

/-- `IGetBool` from `type_helpers.go`: a bool is itself; every numeric input
answers whether it is nonzero; anything else is a type error expecting bool. -/
def IGetBool : Value → Except EvalErr Bool
  | .vBool b => .ok b
  | .vInt n => .ok (n != 0)
  | .vUInt n => .ok (n != 0)
  | .vFloat q => .ok (q != 0)
  | v => .error (NewTypeError v [.bool])

/-- `IGetString` from `type_helpers.go`: strings and byte slices only. -/
def IGetString : Value → Except EvalErr String
  | .vString s => .ok s
  | .vBytes s => .ok s
  | v => .error (NewTypeError v [.string])

/-- `IIsNull` from `type_helpers.go`: true for nil, Delete and Nothing. -/
def IIsNull : Value → Bool
  | .vNull => true
  | .vDelete => true
  | .vNothing => true
  | _ => false

mutual

/-- Structural equality of boxed values, modelling `cmp.Equal` from the go-cmp
library as used by `compareGenericFn` (objects are canonical association
lists, so list equality is Go's key-order-independent map equality). -/
def valueEq : Value → Value → Bool
  | .vString a, .vString b => a == b
  | .vBytes a, .vBytes b => a == b
  | .vInt a, .vInt b => a == b
  | .vUInt a, .vUInt b => a == b
  | .vFloat a, .vFloat b => a == b
  | .vBool a, .vBool b => a == b
  | .vArray a, .vArray b => valueListEq a b
  | .vObject a, .vObject b => valueObjEq a b
  | .vNull, .vNull => true
  | .vDelete, .vDelete => true
  | .vNothing, .vNothing => true
  | _, _ => false

/-- Element-wise equality of value arrays. -/
def valueListEq : List Value → List Value → Bool
  | [], [] => true
  | x :: xs, y :: ys => valueEq x y && valueListEq xs ys
  | _, _ => false

/-- Entry-wise equality of canonical object association lists. -/
def valueObjEq : List (String × Value) → List (String × Value) → Bool
  | [], [] => true
  | (k, v) :: xs, (l, w) :: ys => k == l && valueEq v w && valueObjEq xs ys
  | _, _ => false

end

/-!  ## Query function tree

The Go `Function` interface (`exec(ctx) (interface{}, error)`) is not among
the provided sources; its shape is fixed by the spec (§3 "Function node") and
by how `arithmetic.go` consumes it: `Literal` is a concrete struct holding a
value (used for the constant-folding type test `lhs.(*Literal)`), and
`ClosureFunction` wraps a native evaluation function.  Target-path bookkeeping
(`aggregateTargetPaths`) is carried opaquely and unused by every claim here.
-/

/-- Modelled from the spec: the evaluation context (spec §3 `EvalContext`,
Go `FunctionContext`, not among the provided sources).  The arithmetic layer
only threads it through to child functions. -/
structure FunctionContext where
  index : Nat := 0
  vars : List (String × Value) := []
  value : Option Value := none

/-- A query function node: a `Literal` (as in Go's `*Literal`, recognised by
the constant folder) or a closure produced by `ClosureFunction`. -/
inductive Function where
  | literal (v : Value)
  | closure (f : FunctionContext → Except EvalErr Value)

/-- `NewLiteralFunction` from the query package. -/
def NewLiteralFunction (v : Value) : Function := .literal v

/-- `Function.Exec`: a literal returns its value, a closure runs. -/
def Function.exec : Function → FunctionContext → Except EvalErr Value
  | .literal v, _ => .ok v
  | .closure f, ctx => f ctx

/-- An `arithmeticOpFunc`: combines two evaluated operands. -/
def ArithmeticOpFunc : Type := Value → Value → Except EvalErr Value

/-- `ArithmeticOperator` from `arithmetic.go`. -/
inductive ArithmeticOperator where
  | add
  | sub
  | div
  | mul
  | mod
  | eq
  | neq
  | gt
  | lt
  | gte
  | lte
  | and
  | or
  | pipe
deriving DecidableEq, Repr

/-- `arithmeticFunc` from `arithmetic.go`: when both children are literals the
operator is evaluated at build time (errors surface immediately) and the node
becomes a literal; otherwise a closure evaluating lhs then rhs then the
operator. -/
def arithmeticFunc (lhs rhs : Function) (op : ArithmeticOpFunc) : Except EvalErr Function :=
  match lhs, rhs with
  | .literal l, .literal r =>
    match op l r with
    | .error e => .error e
    | .ok res => .ok (NewLiteralFunction res)
  | _, _ =>
    .ok (.closure fun ctx =>
      match Function.exec lhs ctx with
      | .error e => .error e
      | .ok leftV =>
        match Function.exec rhs ctx with
        | .error e => .error e
        | .ok rightV => op leftV rightV)

/-- `numberDegradationFunc` from `arithmetic.go`: sanitize both operands; if
either side is a float both are taken as floats, otherwise both as ints. -/
def numberDegradationFunc (iFn : Int → Int → Except EvalErr Int)
    (fFn : Rat → Rat → Except EvalErr Rat) : ArithmeticOpFunc := fun left right =>
  let left := ISanitize left
  let right := ISanitize right
  match left with
  | .vFloat leftFloat =>
    match IGetNumber right with
    | .error e => .error e
    | .ok rightFloat => (fFn leftFloat rightFloat).map .vFloat
  | _ =>
    match right with
    | .vFloat rightFloat =>
      match IGetNumber left with
      | .error e => .error e
      | .ok leftFloat => (fFn leftFloat rightFloat).map .vFloat
    | _ =>
      match IGetInt left with
      | .error e => .error e
      | .ok leftInt =>
        match IGetInt right with
        | .error e => .error e
        | .ok rightInt => (iFn leftInt rightInt).map .vInt

/-- The `*` operator: the int/float ladder; Go int64 multiplication wraps. -/
def arithMulFn : ArithmeticOpFunc :=
  numberDegradationFunc
    (fun lhs rhs => .ok (wrap64 (lhs * rhs)))
    (fun lhs rhs => .ok (lhs * rhs))

/-- The `/` operator: float-only division; lhs is coerced first, then rhs; a
zero (coerced) divisor is `ErrDivideByZero`. -/
def arithDivFn : ArithmeticOpFunc := fun left right =>
  match IGetNumber left with
  | .error e => .error e
  | .ok lhs =>
    match IGetNumber right with
    | .error e => .error e
    | .ok rhs =>
      if rhs = 0 then .error .divideByZero
      else .ok (.vFloat (lhs / rhs))

/-- The `%` operator: integer-only remainder (Go's `%` is the truncated
division remainder, `Int.tmod`); a zero (coerced) divisor is
`ErrDivideByZero`. -/
def arithModFn : ArithmeticOpFunc := fun left right =>
  match IGetInt left with
  | .error e => .error e
  | .ok lhs =>
    match IGetInt right with
    | .error e => .error e
    | .ok rhs =>
      if rhs = 0 then .error .divideByZero
      else .ok (.vInt (Int.tmod lhs rhs))

/-- `prodOp` from `arithmetic.go`: the operators of the first precedence
pass. -/
def prodOp : ArithmeticOperator → Option ArithmeticOpFunc
  | .mul => some arithMulFn
  | .div => some arithDivFn
  | .mod => some arithModFn
  | _ => none

/-- The number branch of `+`: the int/float ladder (Go int64 addition
wraps). -/
def numberAddFn : ArithmeticOpFunc :=
  numberDegradationFunc
    (fun left right => .ok (wrap64 (left + right)))
    (fun left right => .ok (left + right))

/-- The `+` operator: dispatches on the (unsanitized) lhs type: numeric lhs
goes through the number ladder, string/bytes lhs concatenates with
`IGetString(rhs)`, anything else is a type error expecting number or
string. -/
def arithAddFn : ArithmeticOpFunc := fun left right =>
  match left with
  | .vFloat _ => numberAddFn left right
  | .vInt _ => numberAddFn left right
  | .vUInt _ => numberAddFn left right
  | .vString _ =>
    match IGetString left with
    | .error e => .error e
    | .ok lhs =>
      match IGetString right with
      | .error e => .error e
      | .ok rhs => .ok (.vString (lhs ++ rhs))
  | .vBytes _ =>
    match IGetString left with
    | .error e => .error e
    | .ok lhs =>
      match IGetString right with
      | .error e => .error e
      | .ok rhs => .ok (.vString (lhs ++ rhs))
  | _ => .error (NewTypeError left [.number, .string])

/-- The `-` operator: the number ladder (Go int64 subtraction wraps). -/
def arithSubFn : ArithmeticOpFunc :=
  numberDegradationFunc
    (fun lhs rhs => .ok (wrap64 (lhs - rhs)))
    (fun lhs rhs => .ok (lhs - rhs))

/-- `sumOp` from `arithmetic.go`: the operators of the second precedence
pass. -/
def sumOp : ArithmeticOperator → Option ArithmeticOpFunc
  | .add => some arithAddFn
  | .sub => some arithSubFn
  | _ => none

/-- `compareNumFn` from `arithmetic.go`: float comparator per operator. -/
def compareNumFn : ArithmeticOperator → Option (Rat → Rat → Bool)
  | .eq => some (fun lhs rhs => lhs == rhs)
  | .neq => some (fun lhs rhs => lhs != rhs)
  | .gt => some (fun lhs rhs => lhs > rhs)
  | .gte => some (fun lhs rhs => lhs ≥ rhs)
  | .lt => some (fun lhs rhs => lhs < rhs)
  | .lte => some (fun lhs rhs => lhs ≤ rhs)
  | _ => none

/-- `compareStrFn` from `arithmetic.go`: lexicographic string comparator per
operator. -/
def compareStrFn : ArithmeticOperator → Option (String → String → Bool)
  | .eq => some (fun lhs rhs => lhs == rhs)
  | .neq => some (fun lhs rhs => lhs != rhs)
  | .gt => some (fun lhs rhs => rhs < lhs)
  | .gte => some (fun lhs rhs => rhs ≤ lhs)
  | .lt => some (fun lhs rhs => lhs < rhs)
  | .lte => some (fun lhs rhs => lhs ≤ rhs)
  | _ => none

/-- `compareBoolFn` from `arithmetic.go`: only equality and inequality. -/
def compareBoolFn : ArithmeticOperator → Option (Bool → Bool → Bool)
  | .eq => some (fun lhs rhs => lhs == rhs)
  | .neq => some (fun lhs rhs => lhs != rhs)
  | _ => none

/-- `compareGenericFn` from `arithmetic.go`: structural `cmp.Equal`, only for
equality and inequality. -/
def compareGenericFn : ArithmeticOperator → Option (Value → Value → Bool)
  | .eq => some (fun lhs rhs => valueEq lhs rhs)
  | .neq => some (fun lhs rhs => !(valueEq lhs rhs))
  | _ => none

/-- `restrictForComparison` from `arithmetic.go`: sanitize and widen int64 and
uint64 to float, take bytes as string. -/
def restrictForComparison (v : Value) : Value :=
  match ISanitize v with
  | .vInt n => .vFloat (n : Rat)
  | .vUInt n => .vFloat (n : Rat)
  | .vBytes s => .vString s
  | w => w

/-- The comparison operator body built by `compareOp`: dispatch by the
restricted lhs type: string / float / bool branches coerce the rhs (a failed
coercion yields `true` under `!=` and propagates the error otherwise);
operators missing from a branch's table yield a type error about the lhs;
every other lhs goes through structural generic comparison (only for
`==`/`!=`). -/
def compareOpFn (op : ArithmeticOperator) : ArithmeticOpFunc := fun left right =>
  match restrictForComparison left with
  | .vString lhs =>
    match compareStrFn op with
    | none => .error (NewTypeError left [])
    | some strOpFn =>
      match IGetString right with
      | .error err => if op = .neq then .ok (.vBool true) else .error err
      | .ok rhs => .ok (.vBool (strOpFn lhs rhs))
  | .vFloat lhs =>
    match compareNumFn op with
    | none => .error (NewTypeError left [])
    | some numOpFn =>
      match IGetNumber right with
      | .error err => if op = .neq then .ok (.vBool true) else .error err
      | .ok rhs => .ok (.vBool (numOpFn lhs rhs))
  | .vBool lhs =>
    match compareBoolFn op with
    | none => .error (NewTypeError left [])
    | some boolOpFn =>
      match IGetBool right with
      | .error err => if op = .neq then .ok (.vBool true) else .error err
      | .ok rhs => .ok (.vBool (boolOpFn lhs rhs))
  | _ =>
    match compareGenericFn op with
    | none => .error (NewTypeError left [])
    | some genericOpFn => .ok (.vBool (genericOpFn left right))

/-- `compareOp` from `arithmetic.go`: the operators of the third precedence
pass. -/
def compareOp : ArithmeticOperator → Option ArithmeticOpFunc
  | .eq => some (compareOpFn .eq)
  | .neq => some (compareOpFn .neq)
  | .gt => some (compareOpFn .gt)
  | .gte => some (compareOpFn .gte)
  | .lt => some (compareOpFn .lt)
  | .lte => some (compareOpFn .lte)
  | _ => none

/-- `boolOr` from `arithmetic.go`: short-circuit disjunction through
`IGetBool`. -/
def boolOr (lhs rhs : Function) : Function :=
  .closure fun ctx =>
    match Function.exec lhs ctx with
    | .error e => .error e
    | .ok lhsV =>
      match IGetBool lhsV with
      | .error e => .error e
      | .ok b =>
        if b then .ok (.vBool true)
        else
          match Function.exec rhs ctx with
          | .error e => .error e
          | .ok rhsV =>
            match IGetBool rhsV with
            | .error e => .error e
            | .ok b2 => .ok (.vBool b2)

/-- `boolAnd` from `arithmetic.go`: short-circuit conjunction through
`IGetBool`. -/
def boolAnd (lhs rhs : Function) : Function :=
  .closure fun ctx =>
    match Function.exec lhs ctx with
    | .error e => .error e
    | .ok lhsV =>
      match IGetBool lhsV with
      | .error e => .error e
      | .ok b =>
        if !b then .ok (.vBool false)
        else
          match Function.exec rhs ctx with
          | .error e => .error e
          | .ok rhsV =>
            match IGetBool rhsV with
            | .error e => .error e
            | .ok b2 => .ok (.vBool b2)

/-- `coalesce` from `arithmetic.go`: lhs wins exactly when it evaluated
without error to a non-null-ish value, otherwise rhs is evaluated. -/
def coalesce (lhs rhs : Function) : Function :=
  .closure fun ctx =>
    match Function.exec lhs ctx with
    | .ok lhsV => if !(IIsNull lhsV) then .ok lhsV else Function.exec rhs ctx
    | .error _ => Function.exec rhs ctx

/-- One pass of `NewArithmeticExpression`'s fold, iterating the remaining
`(op, next fn)` pairs: when `select` recognises `op` the current rightmost
function is combined with the next via `arithmeticFunc` (build-time errors
propagate); otherwise the pair is carried into the output lists. -/
def resolvePass (select : ArithmeticOperator → Option ArithmeticOpFunc) :
    Function → List (ArithmeticOperator × Function) →
    Except EvalErr (List Function × List ArithmeticOperator)
  | cur, [] => .ok ([cur], [])
  | cur, (op, f) :: rest =>
    match select op with
    | some opFunc =>
      match arithmeticFunc cur f opFunc with
      | .error e => .error e
      | .ok cur2 => resolvePass select cur2 rest
    | none =>
      match resolvePass select f rest with
      | .error e => .error e
      | .ok (fns, ops) => .ok (cur :: fns, op :: ops)

/-- The first pass of `NewArithmeticExpression`: products (`*`, `/`, `%`)
through `arithmeticFunc` and the coalesce pipe (combined directly, never a
build-time error). -/
def resolvePass1 :
    Function → List (ArithmeticOperator × Function) →
    Except EvalErr (List Function × List ArithmeticOperator)
  | cur, [] => .ok ([cur], [])
  | cur, (op, f) :: rest =>
    match prodOp op with
    | some opFunc =>
      match arithmeticFunc cur f opFunc with
      | .error e => .error e
      | .ok cur2 => resolvePass1 cur2 rest
    | none =>
      if op = .pipe then
        resolvePass1 (coalesce cur f) rest
      else
        match resolvePass1 f rest with
        | .error e => .error e
        | .ok (fns, ops) => .ok (cur :: fns, op :: ops)

/-- The fourth pass of `NewArithmeticExpression`: `&&` and `||` combine
directly into short-circuit closures; other operators are carried through. -/
def resolvePass4 :
    Function → List (ArithmeticOperator × Function) →
    List Function × List ArithmeticOperator
  | cur, [] => ([cur], [])
  | cur, (op, f) :: rest =>
    match op with
    | .and => resolvePass4 (boolAnd cur f) rest
    | .or => resolvePass4 (boolOr cur f) rest
    | _ =>
      let (fns, ops) := resolvePass4 f rest
      (cur :: fns, op :: ops)

/-- `NewArithmeticExpression` from `arithmetic.go`: checks the
functions/operators arity, then resolves the flat sequence by four precedence
passes — products and coalesce, then sums, then comparisons, then the boolean
operators — each folding left-to-right, returning as soon as a pass leaves a
single function. -/
def NewArithmeticExpression (fns : List Function) (ops : List ArithmeticOperator) :
    Except EvalErr Function :=
  match fns, ops with
  | [fn], [] => .ok fn
  | fns, ops =>
    match fns with
    | [] => .error (.msg "mismatch of functions to arithmetic operators")
    | f0 :: frest =>
      if frest.length ≠ ops.length then
        .error (.msg "mismatch of functions to arithmetic operators")
      else
        match resolvePass1 f0 (ops.zip frest) with
        | .error e => .error e
        | .ok (fns1, ops1) =>
          match fns1 with
          | [fn] => .ok fn
          | [] => .error (.msg "unresolved arithmetic operators")
          | g0 :: grest =>
            match resolvePass sumOp g0 (ops1.zip grest) with
            | .error e => .error e
            | .ok (fns2, ops2) =>
              match fns2 with
              | [fn] => .ok fn
              | [] => .error (.msg "unresolved arithmetic operators")
              | h0 :: hrest =>
                match resolvePass compareOp h0 (ops2.zip hrest) with
                | .error e => .error e
                | .ok (fns3, ops3) =>
                  match fns3 with
                  | [fn] => .ok fn
                  | [] => .error (.msg "unresolved arithmetic operators")
                  | k0 :: krest =>
                    match resolvePass4 k0 (ops3.zip krest) with
                    | ([fn], _) => .ok fn
                    | _ => .error (.msg "unresolved arithmetic operators")

/-!  ## `ArgSpec` (public/bloblang/arguments.go)

The Go builder registers one closure per positional argument; each closure
reads `args[index]`, performs the typed extraction and writes through a
pointer.  The pointer-writing is modelled by returning the list of extracted
values on success: each registered slot receives exactly the values below.
-/

/-- The typed extraction a registered argument slot performs (`IntVar` and
`Int64Var` both extract through `IGetInt`; `AnyVar` accepts anything). -/
inductive ArgKind where
  | intArg
  | int64Arg
  | float64Arg
  | boolArg
  | stringArg
  | anyArg
deriving DecidableEq, Repr

/-- The value an argument slot's pointer receives. -/
inductive ArgValue where
  | ofInt (n : Int)
  | ofFloat (q : Rat)
  | ofBool (b : Bool)
  | ofString (s : String)
  | ofAny (v : Value)
deriving Repr

/-- The errors `Extract` reports: an arity mismatch naming the expected and
received counts, or a failed typed extraction naming the argument's 0-based
index and wrapping the cause. -/
inductive ArgErr where
  | arity (expected received : Nat)
  | badArg (index : Nat) (cause : EvalErr)
deriving DecidableEq, Repr

/-- `ArgSpec`: the registered argument count `n` together with the validator
list; each validator is its 0-based index paired with the typed extraction it
performs. -/
structure ArgSpec where
  n : Nat
  validators : List (Nat × ArgKind)

/-- `NewArgSpec` from `arguments.go`. -/
def NewArgSpec : ArgSpec := ⟨0, []⟩

/-- Register one argument slot: record the current count as the slot's index
and increment (`IntVar`, `Int64Var`, `Float64Var`, `BoolVar`, `StringVar`,
`AnyVar` all follow this shape). -/
def ArgSpec.addVar (a : ArgSpec) (k : ArgKind) : ArgSpec :=
  ⟨a.n + 1, a.validators ++ [(a.n, k)]⟩

/-- `IntVar` from `arguments.go`. -/
def ArgSpec.IntVar (a : ArgSpec) : ArgSpec := a.addVar .intArg

/-- `Int64Var` from `arguments.go`. -/
def ArgSpec.Int64Var (a : ArgSpec) : ArgSpec := a.addVar .int64Arg

/-- `Float64Var` from `arguments.go`. -/
def ArgSpec.Float64Var (a : ArgSpec) : ArgSpec := a.addVar .float64Arg

/-- `BoolVar` from `arguments.go`. -/
def ArgSpec.BoolVar (a : ArgSpec) : ArgSpec := a.addVar .boolArg

/-- `StringVar` from `arguments.go`. -/
def ArgSpec.StringVar (a : ArgSpec) : ArgSpec := a.addVar .stringArg

/-- `AnyVar` from `arguments.go`. -/
def ArgSpec.AnyVar (a : ArgSpec) : ArgSpec := a.addVar .anyArg

/-- The typed extraction one validator performs on its argument (`IntVar` and
`Int64Var` via `IGetInt`, `Float64Var` via `IGetNumber`, `BoolVar` via
`IGetBool`, `StringVar` via `IGetString`, `AnyVar` unconditionally). -/
def extractArg : ArgKind → Value → Except EvalErr ArgValue
  | .intArg, v => (IGetInt v).map .ofInt
  | .int64Arg, v => (IGetInt v).map .ofInt
  | .float64Arg, v => (IGetNumber v).map .ofFloat
  | .boolArg, v => (IGetBool v).map .ofBool
  | .stringArg, v => (IGetString v).map .ofString
  | .anyArg, v => .ok (.ofAny v)

/-- Run the validators in registration order; the first failure aborts with
the failing slot's 0-based index (each validator reads `args[index]`; for
builder-built specs every index is below `args.length`, the `.vNull` default
is unreachable). -/
def runValidators : List (Nat × ArgKind) → List Value → Except ArgErr (List ArgValue)
  | [], _ => .ok []
  | (index, k) :: rest, args =>
    match extractArg k (args.getD index .vNull) with
    | .error e => .error (.badArg index e)
    | .ok v =>
      match runValidators rest args with
      | .error e => .error e
      | .ok vs => .ok (v :: vs)

/-- `Extract` from `arguments.go`: arity check first (reporting expected and
received counts), then each validator in order. -/
def ArgSpec.Extract (a : ArgSpec) (args : List Value) : Except ArgErr (List ArgValue) :=
  if args.length ≠ a.n then .error (.arity a.n args.length)
  else runValidators a.validators args

/-- Build an `ArgSpec` by registering the given slots in order. -/
def buildArgSpec (ks : List ArgKind) : ArgSpec :=
  ks.foldl ArgSpec.addVar NewArgSpec

/-!  ## Mapping executor (spec-modelled)

The Go implementation (`internal/bloblang/mapping/executor.go` with
`MapPart`, `NewStatement`, the assignment types) is not among the provided
sources — only its test file is.  The executor below is modelled from the
spec (§4.4 "Assignments", §4.5 "Mapping Executor"): a pending result is
deep-cloned from the input part, statements run in order (query evaluation
then assignment, either error aborting with the statement's line), a root
`Delete` marks the pending part deleted, a later root assignment may
resurrect it, and materialization yields `none` exactly when the pending
result is still marked deleted.
-/

/-- Modelled from the spec: a message part (spec §3 "Message"), reduced to
its structured payload and metadata (serialization to bytes is outside the
modelled claims). -/
structure MsgPart where
  content : Value
  meta : List (String × String)
deriving Repr

/-- Modelled from the spec: the three assignment destinations (spec §3
"Assignment"); an empty path / `none` key is the root case. -/
inductive Assignment where
  | jsonTarget (path : List String)
  | metaTarget (key : Option String)
  | varTarget (name : String)

/-- Modelled from the spec: one mapping statement (spec §3 "Statement"). -/
structure MapStatement where
  line : Nat
  target : Assignment
  query : Function

/-- Modelled from the spec: the pending result of `map_part` (spec §4.5):
the cloned structured payload, the root-deletion mark, the cloned metadata
and the per-invocation variable bag. -/
structure Pending where
  payload : Value
  deleted : Bool
  meta : List (String × String)
  vars : List (String × Value)

/-- Modelled from the spec: `MapError` (spec §7), a query or assignment
failure carrying the statement's line. -/
inductive MapErr where
  | queryFail (line : Nat) (cause : EvalErr)
  | assignFail (line : Nat) (cause : String)
deriving Repr

/-- Set key `k` to `v` in an object association list (in place if present,
appended otherwise). -/
def objSet (kvs : List (String × Value)) (k : String) (v : Value) : List (String × Value) :=
  if kvs.any (fun kv => kv.1 == k) then
    kvs.map (fun kv => if kv.1 == k then (k, v) else kv)
  else
    kvs ++ [(k, v)]

/-- Look up key `k` in an object association list. -/
def objGet (kvs : List (String × Value)) (k : String) : Option Value :=
  (kvs.find? (fun kv => kv.1 == k)).map (fun kv => kv.2)

/-- Modelled from the spec: setting a nested JSON path (spec §4.4): missing
or non-object intermediates are replaced by freshly created objects. -/
def gabsSet : Value → List String → Value → Value
  | _, [], v => v
  | .vObject kvs, k :: rest, v =>
    let child := match objGet kvs k with
      | some c => c
      | none => .vObject []
    .vObject (objSet kvs k (gabsSet child rest v))
  | _, k :: rest, v => .vObject [(k, gabsSet (.vObject []) rest v)]

/-- Modelled from the spec: deleting a nested JSON path (spec §4.4): the
leaf key is removed; a missing path is a no-op. -/
def gabsDelete : Value → List String → Value
  | .vObject kvs, [k] => .vObject (kvs.filter (fun kv => kv.1 != k))
  | .vObject kvs, k :: k2 :: rest =>
    match objGet kvs k with
    | some c => .vObject (objSet kvs k (gabsDelete c (k2 :: rest)))
    | none => .vObject kvs
  | v, _ => v

/-- Modelled from the spec: `to_string` as used when assigning a metadata
key (spec §4.4); scalars render as in `IToString` of `type_helpers.go`,
containers through a plain JSON rendering (no claim inspects this text). -/
def metaString : Value → String
  | .vString s => s
  | .vBytes s => s
  | .vInt n => toString n
  | .vUInt n => toString n
  | .vFloat q => toString q
  | .vBool true => "true"
  | .vBool false => "false"
  | _ => "null"

/-- Modelled from the spec: applying an evaluated value to an assignment
destination (spec §4.4): a root `Delete` marks the part deleted and a root
value resurrects it; `Nothing` is always a no-op; nested JSON writes create
intermediates; the metadata root requires an object; a metadata key stores
the stringified value; variables live in the per-invocation bag. -/
def applyAssignment (line : Nat) (target : Assignment) (v : Value) (pend : Pending) :
    Except MapErr Pending :=
  match target with
  | .jsonTarget [] =>
    match v with
    | .vDelete => .ok { pend with deleted := true }
    | .vNothing => .ok pend
    | _ => .ok { pend with payload := v, deleted := false }
  | .jsonTarget (k :: rest) =>
    match v with
    | .vDelete => .ok { pend with payload := gabsDelete pend.payload (k :: rest) }
    | .vNothing => .ok pend
    | _ => .ok { pend with payload := gabsSet pend.payload (k :: rest) v }
  | .metaTarget none =>
    match v with
    | .vDelete => .ok { pend with meta := [] }
    | .vNothing => .ok pend
    | .vObject kvs => .ok { pend with meta := kvs.map (fun kv => (kv.1, metaString kv.2)) }
    | _ => .error (.assignFail line "setting root meta object requires object value")
  | .metaTarget (some k) =>
    match v with
    | .vDelete => .ok { pend with meta := pend.meta.filter (fun kv => kv.1 != k) }
    | .vNothing => .ok pend
    | _ => .ok { pend with meta := (pend.meta.filter (fun kv => kv.1 != k)) ++ [(k, metaString v)] }
  | .varTarget name =>
    match v with
    | .vDelete => .ok { pend with vars := pend.vars.filter (fun kv => kv.1 != name) }
    | .vNothing => .ok pend
    | _ => .ok { pend with vars := (pend.vars.filter (fun kv => kv.1 != name)) ++ [(name, v)] }

/-- Modelled from the spec: the statement loop of `map_part` (spec §4.5):
for each statement in order, evaluate its query in a context carrying the
input part's structured payload and the current variable bag, then apply the
result to the destination; either failure aborts with the statement line. -/
def runStatements (orig : MsgPart) (index : Nat) :
    Pending → List MapStatement → Except MapErr Pending
  | pend, [] => .ok pend
  | pend, st :: rest =>
    let ctx : FunctionContext := { index := index, vars := pend.vars, value := some orig.content }
    match Function.exec st.query ctx with
    | .error e => .error (.queryFail st.line e)
    | .ok v =>
      match applyAssignment st.line st.target v pend with
      | .error e => .error e
      | .ok pend2 => runStatements orig index pend2 rest

/-- Modelled from the spec: materialization (spec §4.5): `none` exactly when
the pending result is still marked deleted, otherwise a part built from the
pending payload and metadata. -/
def materialize (pend : Pending) : Option MsgPart :=
  if pend.deleted then none else some ⟨pend.payload, pend.meta⟩

/-- Modelled from the spec: `map_part(index, batch)` (spec §4.5): clone the
indexed part into the pending result, run every statement in order, then
materialize. -/
def MapPart (stmts : List MapStatement) (index : Nat) (batch : List MsgPart) :
    Except MapErr (Option MsgPart) :=
  match batch.get? index with
  | none => .error (.queryFail 0 (.msg "part missing"))
  | some part =>
    match runStatements part index ⟨part.content, false, part.meta, []⟩ stmts with
    | .error e => .error e
    | .ok pend => .ok (materialize pend)

/-!  ## Claims -/

/-- C5: the coalesce operator `|` returns the lhs result exactly when the lhs
evaluated without error to a value that is not Null, Delete or Nothing; in
every other case (error, Null, Delete or Nothing — `IIsNull` is true precisely
on those three values) it returns the rhs result, so a left-hand Delete takes
the right side. -/
theorem coalesce_spec :
    (∀ (lhs rhs : Function) (ctx : FunctionContext),
      Function.exec (coalesce lhs rhs) ctx =
        match Function.exec lhs ctx with
        | .ok v => if IIsNull v then Function.exec rhs ctx else .ok v
        | .error _ => Function.exec rhs ctx) ∧
    (∀ (v : Value), IIsNull v = true ↔ v = .vNull ∨ v = .vDelete ∨ v = .vNothing) ∧
    (∀ (rhs : Function) (ctx : FunctionContext),
      Function.exec (coalesce (NewLiteralFunction .vDelete) rhs) ctx = Function.exec rhs ctx) := by
  refine ⟨fun lhs rhs ctx => ?_, fun v => ?_, fun rhs ctx => ?_⟩
  · show (match Function.exec lhs ctx with
      | .ok lhsV => if !(IIsNull lhsV) then Except.ok lhsV else Function.exec rhs ctx
      | .error _ => Function.exec rhs ctx) = _
    cases h : Function.exec lhs ctx with
    | ok v => cases hn : IIsNull v <;> simp [hn]
    | error e => rfl
  · cases v <;> simp [IIsNull]
  · rfl

/-- C7: for every operator function and literal children, the builder
evaluates the operator at compile time: when it succeeds, the produced node
evaluates (in every context) to exactly what the unfolded closure would
return, namely the operator applied to the two literal values; when the
operator fails on the literal operands, that error is returned at build
time. -/
theorem literal_constant_folding :
    ∀ (op : ArithmeticOpFunc) (l r : Value) (ctx : FunctionContext),
      (match arithmeticFunc (NewLiteralFunction l) (NewLiteralFunction r) op with
        | .ok fn => Function.exec fn ctx = op l r
        | .error e => op l r = .error e) ∧
      arithmeticFunc (NewLiteralFunction l) (NewLiteralFunction r) op =
        (match op l r with
          | .ok res => .ok (NewLiteralFunction res)
          | .error e => .error e) := by
  intro op l r ctx
  refine ⟨?_, ?_⟩ <;>
    cases h : op l r <;> simp [arithmeticFunc, NewLiteralFunction, Function.exec, h]

/-- C3 counterexample: `"foo" + 5` does not concatenate; the strict string
extractor rejects the numeric right operand, so the `+` operator returns a
TypeError rather than `"foo5"`. -/
theorem string_add_numeric_cex :
    arithAddFn (.vString "foo") (.vInt 5) = .error (.typeError .number [.string]) ∧
    arithAddFn (.vString "foo") (.vInt 5) ≠ .ok (.vString "foo5") := by
  refine ⟨rfl, fun hc => ?_⟩
  have h1 : arithAddFn (.vString "foo") (.vInt 5) = .error (.typeError .number [.string]) := rfl
  rw [h1] at hc
  exact Except.noConfusion hc

/-- C3 amended: for a string or bytes left operand, `+` concatenates exactly
when the right operand is itself a string or bytes (extracted by the strict
`IGetString`); any other right operand — numeric included — yields the
extractor's TypeError instead of being stringified. -/
theorem string_add_requires_stringlike :
    ∀ (s : String) (r : Value),
      arithAddFn (.vString s) r =
        (match IGetString r with
          | .ok rs => .ok (.vString (s ++ rs))
          | .error e => .error e) ∧
      arithAddFn (.vBytes s) r =
        (match IGetString r with
          | .ok rs => .ok (.vString (s ++ rs))
          | .error e => .error e) := by
  intro s r
  constructor <;>
  · show (match IGetString r with
      | .error e => Except.error e
      | .ok rhs => Except.ok (Value.vString (s ++ rhs))) = _
    cases h : IGetString r <;> rfl

/-- C9: `IGetBool` returns a bool unchanged, answers nonzero-ness for every
numeric input (int64, uint64, float64) without error, and rejects strings,
bytes, arrays, objects and null with a TypeError; consequently `&&` and `||`
accept a numeric left operand, treating nonzero as true. -/
theorem igetbool_numeric_nonzero :
    (∀ b : Bool, IGetBool (.vBool b) = .ok b) ∧
    (∀ n : Int, IGetBool (.vInt n) = .ok (n != 0)) ∧
    (∀ n : Nat, IGetBool (.vUInt n) = .ok (n != 0)) ∧
    (∀ q : Rat, IGetBool (.vFloat q) = .ok (q != 0)) ∧
    (∀ s, IGetBool (.vString s) = .error (.typeError .string [.bool])) ∧
    (∀ s, IGetBool (.vBytes s) = .error (.typeError .bytes [.bool])) ∧
    (∀ xs, IGetBool (.vArray xs) = .error (.typeError .array [.bool])) ∧
    (∀ kvs, IGetBool (.vObject kvs) = .error (.typeError .object [.bool])) ∧
    IGetBool .vNull = .error (.typeError .null [.bool]) ∧
    (∀ (n : Int) (rhs : Function) (ctx : FunctionContext),
      Function.exec (boolAnd (NewLiteralFunction (.vInt n)) rhs) ctx =
        if n = 0 then .ok (.vBool false)
        else
          match Function.exec rhs ctx with
          | .error e => .error e
          | .ok rhsV =>
            match IGetBool rhsV with
            | .error e => .error e
            | .ok b2 => .ok (.vBool b2)) ∧
    (∀ (n : Int) (rhs : Function) (ctx : FunctionContext),
      Function.exec (boolOr (NewLiteralFunction (.vInt n)) rhs) ctx =
        if n = 0 then
          match Function.exec rhs ctx with
          | .error e => .error e
          | .ok rhsV =>
            match IGetBool rhsV with
            | .error e => .error e
            | .ok b2 => .ok (.vBool b2)
        else .ok (.vBool true)) := by
  refine ⟨fun b => rfl, fun n => rfl, fun n => rfl, fun q => rfl, fun s => rfl,
    fun s => rfl, fun xs => rfl, fun kvs => rfl, rfl, fun n rhs ctx => ?_, fun n rhs ctx => ?_⟩
  · by_cases hn : n = 0
    · subst hn
      rfl
    · have hb : ((n != 0) : Bool) = true := by simpa using hn
      show (if !(n != 0) then Except.ok (Value.vBool false)
        else
          match Function.exec rhs ctx with
          | .error e => Except.error e
          | .ok rhsV =>
            match IGetBool rhsV with
            | .error e => Except.error e
            | .ok b2 => Except.ok (Value.vBool b2)) = _
      rw [hb, if_neg hn]
      rfl
  · by_cases hn : n = 0
    · subst hn
      rfl
    · have hb : ((n != 0) : Bool) = true := by simpa using hn
      show (if (n != 0) then Except.ok (Value.vBool true)
        else
          match Function.exec rhs ctx with
          | .error e => Except.error e
          | .ok rhsV =>
            match IGetBool rhsV with
            | .error e => Except.error e
            | .ok b2 => Except.ok (Value.vBool b2)) = _
      rw [hb, if_neg hn]
      rfl

/-- C10: `IGetInt` accepts every float input, truncating toward zero without
error (`ratTrunc` is the floor of nonnegative values and the ceiling of
negative ones); consequently `%` on two float operands computes the remainder
of the truncations and fails with DivideByZero exactly when the truncated
divisor is zero. -/
theorem igetint_float_trunc :
    (∀ q : Rat, IGetInt (.vFloat q) = .ok (ratTrunc q)) ∧
    (∀ q : Rat, ratTrunc q = if 0 ≤ q then ⌊q⌋ else ⌈q⌉) ∧
    (∀ p q : Rat,
      arithModFn (.vFloat p) (.vFloat q) =
        if ratTrunc q = 0 then .error .divideByZero
        else .ok (.vInt (Int.tmod (ratTrunc p) (ratTrunc q)))) := by
  refine ⟨fun q => rfl, fun q => ?_, fun p q => ?_⟩
  · by_cases h : 0 ≤ q
    · have hn : 0 ≤ q.num := Rat.num_nonneg.mpr h
      rw [ratTrunc, if_pos hn, if_pos h, Rat.floor_def]
      rw [← Int.toNat_of_nonneg hn]
      norm_cast
    · have hn : ¬ 0 ≤ q.num := fun hc => h (Rat.num_nonneg.mp hc)
      rw [ratTrunc, if_neg hn, if_neg h]
      have hq : ⌈q⌉ = -⌊-q⌋ := by rw [← Int.ceil_neg, neg_neg]
      rw [hq, Rat.floor_def, Rat.num_neg_eq_neg_num, Rat.den_neg_eq_den]
      have hpos : 0 ≤ -q.num := by omega
      rw [← Int.toNat_of_nonneg hpos]
      norm_cast
  · rfl

/-- C6: `/` coerces both operands to float and divides, failing with
DivideByZero exactly when the coerced divisor is zero; `%` coerces both to
integer with the same zero check; conversely a DivideByZero can only arise
from a divisor that coerced to zero, never from a coercion failure. -/
theorem div_mod_divide_by_zero :
    (∀ (l r : Value) (lf rf : Rat), IGetNumber l = .ok lf → IGetNumber r = .ok rf →
      arithDivFn l r =
        if rf = 0 then .error .divideByZero else .ok (.vFloat (lf / rf))) ∧
    (∀ (l r : Value) (li ri : Int), IGetInt l = .ok li → IGetInt r = .ok ri →
      arithModFn l r =
        if ri = 0 then .error .divideByZero else .ok (.vInt (Int.tmod li ri))) ∧
    (∀ l r : Value, arithDivFn l r = .error .divideByZero → IGetNumber r = .ok 0) ∧
    (∀ l r : Value, arithModFn l r = .error .divideByZero → IGetInt r = .ok 0) := by
  have hnum : ∀ v : Value, IGetNumber v ≠ .error .divideByZero := by
    intro v
    cases v <;> simp [IGetNumber, NewTypeError]
  have hint : ∀ v : Value, IGetInt v ≠ .error .divideByZero := by
    intro v
    cases v <;> simp [IGetInt, NewTypeError]
  refine ⟨?_, ?_, ?_, ?_⟩
  · intro l r lf rf h1 h2
    show (match IGetNumber l with
      | .error e => Except.error e
      | .ok lhs =>
        match IGetNumber r with
        | .error e => Except.error e
        | .ok rhs =>
          if rhs = 0 then Except.error EvalErr.divideByZero
          else Except.ok (Value.vFloat (lhs / rhs))) = _
    rw [h1, h2]
  · intro l r li ri h1 h2
    show (match IGetInt l with
      | .error e => Except.error e
      | .ok lhs =>
        match IGetInt r with
        | .error e => Except.error e
        | .ok rhs =>
          if rhs = 0 then Except.error EvalErr.divideByZero
          else Except.ok (Value.vInt (Int.tmod lhs rhs))) = _
    rw [h1, h2]
  · intro l r h
    revert h
    show (match IGetNumber l with
      | .error e => Except.error e
      | .ok lhs =>
        match IGetNumber r with
        | .error e => Except.error e
        | .ok rhs =>
          if rhs = 0 then Except.error EvalErr.divideByZero
          else Except.ok (Value.vFloat (lhs / rhs))) = Except.error EvalErr.divideByZero → _
    cases h1 : IGetNumber l with
    | error e =>
      intro h
      have he : e = EvalErr.divideByZero := Except.error.inj h
      subst he
      exact absurd h1 (hnum l)
    | ok lf =>
      cases h2 : IGetNumber r with
      | error e =>
        intro h
        have he : e = EvalErr.divideByZero := Except.error.inj h
        subst he
        exact absurd h2 (hnum r)
      | ok rf =>
        dsimp only
        intro h
        by_cases hz : rf = 0
        · subst hz
          rfl
        · rw [if_neg hz] at h
          exact Except.noConfusion h
  · intro l r h
    revert h
    show (match IGetInt l with
      | .error e => Except.error e
      | .ok lhs =>
        match IGetInt r with
        | .error e => Except.error e
        | .ok rhs =>
          if rhs = 0 then Except.error EvalErr.divideByZero
          else Except.ok (Value.vInt (Int.tmod lhs rhs))) = Except.error EvalErr.divideByZero → _
    cases h1 : IGetInt l with
    | error e =>
      intro h
      have he : e = EvalErr.divideByZero := Except.error.inj h
      subst he
      exact absurd h1 (hint l)
    | ok li =>
      cases h2 : IGetInt r with
      | error e =>
        intro h
        have he : e = EvalErr.divideByZero := Except.error.inj h
        subst he
        exact absurd h2 (hint r)
      | ok ri =>
        dsimp only
        intro h
        by_cases hz : ri = 0
        · subst hz
          rfl
        · rw [if_neg hz] at h
          exact Except.noConfusion h

/-- C6 witness: `7 / 2` divides, `7 / 0` and `7 % 0` are DivideByZero, and
`7 % 2 = 1`. -/
theorem div_mod_divide_by_zero_witness :
    (arithDivFn (.vInt 7) (.vInt 2) = .ok (.vFloat (7 / 2)) ∧
      arithDivFn (.vInt 7) (.vInt 0) = .error .divideByZero) ∧
    (arithModFn (.vInt 7) (.vInt 2) = .ok (.vInt 1) ∧
      arithModFn (.vInt 7) (.vInt 0) = .error .divideByZero) := by
  refine ⟨⟨?_, ?_⟩, ?_, ?_⟩
  · have h := div_mod_divide_by_zero.1 (.vInt 7) (.vInt 2) ((7 : Int) : Rat) ((2 : Int) : Rat) rfl rfl
    rw [if_neg (by norm_num)] at h
    rw [h]
    norm_num
  · have h := div_mod_divide_by_zero.1 (.vInt 7) (.vInt 0) ((7 : Int) : Rat) ((0 : Int) : Rat) rfl rfl
    rw [if_pos (by norm_num)] at h
    exact h
  · have h := div_mod_divide_by_zero.2.1 (.vInt 7) (.vInt 2) 7 2 rfl rfl
    rw [if_neg (by norm_num)] at h
    rw [h]
    rfl
  · have h := div_mod_divide_by_zero.2.1 (.vInt 7) (.vInt 0) 7 0 rfl rfl
    rw [if_pos rfl] at h
    exact h

/-- C2: the four-pass fold groups operators by the precedence table.  For any
three child functions: `f + g * h` resolves the `*` first (pass one) and then
folds `+` over its result, so it evaluates as `f + (g * h)`; the coalesce
pipe binds tighter than `&&` (`f | g && h` becomes `(f | g) && h`); `==`
resolves before `||` (`f == g || h` becomes `(f == g) || h`); and operators
of one precedence level fold left-to-right (`f - g + h` becomes
`(f - g) + h`). -/
theorem arithmetic_precedence_grouping :
    (∀ f g h : Function,
      NewArithmeticExpression [f, g, h] [.add, .mul] =
        match arithmeticFunc g h arithMulFn with
        | .error e => .error e
        | .ok gh => arithmeticFunc f gh arithAddFn) ∧
    (∀ f g h : Function,
      NewArithmeticExpression [f, g, h] [.pipe, .and] =
        .ok (boolAnd (coalesce f g) h)) ∧
    (∀ f g h : Function,
      NewArithmeticExpression [f, g, h] [.eq, .or] =
        match arithmeticFunc f g (compareOpFn .eq) with
        | .error e => .error e
        | .ok fg => .ok (boolOr fg h)) ∧
    (∀ f g h : Function,
      NewArithmeticExpression [f, g, h] [.sub, .add] =
        match arithmeticFunc f g arithSubFn with
        | .error e => .error e
        | .ok fg => arithmeticFunc fg h arithAddFn) := by
  refine ⟨fun f g h => ?_, fun f g h => ?_, fun f g h => ?_, fun f g h => ?_⟩
  · cases hm : arithmeticFunc g h arithMulFn with
    | error e => simp [NewArithmeticExpression, resolvePass1, prodOp, hm]
    | ok gh =>
      cases ha : arithmeticFunc f gh arithAddFn <;>
        simp [NewArithmeticExpression, resolvePass1, resolvePass, prodOp, sumOp, hm, ha]
  · rfl
  · cases hc : arithmeticFunc f g (compareOpFn .eq) with
    | error e =>
      simp [NewArithmeticExpression, resolvePass1, resolvePass, resolvePass4, prodOp, sumOp,
        compareOp, hc]
    | ok fg =>
      simp [NewArithmeticExpression, resolvePass1, resolvePass, resolvePass4, prodOp, sumOp,
        compareOp, hc]
  · cases hs : arithmeticFunc f g arithSubFn with
    | error e => simp [NewArithmeticExpression, resolvePass1, resolvePass, prodOp, sumOp, hs]
    | ok fg =>
      cases ha : arithmeticFunc fg h arithAddFn <;>
        simp [NewArithmeticExpression, resolvePass1, resolvePass, prodOp, sumOp, hs, ha]

/-- C4 counterexample: for a bool left operand and an ordering operator the
code does not propagate the right operand's coercion error: `true > "x"`
returns the TypeError built from the left operand (actual type bool, no
expected set), not the bool-coercion error on `"x"` (actual type string,
expected bool). -/
theorem comparison_mismatch_cex :
    compareOpFn .gt (.vBool true) (.vString "x") = .error (.typeError .bool []) ∧
    IGetBool (.vString "x") = .error (.typeError .string [.bool]) ∧
    compareOpFn .gt (.vBool true) (.vString "x") ≠ .error (.typeError .string [.bool]) := by
  refine ⟨rfl, rfl, fun hc => ?_⟩
  have h1 : compareOpFn .gt (.vBool true) (.vString "x") = .error (.typeError .bool []) := rfl
  rw [h1] at hc
  simp at hc

/-- C4 amended: when the left operand compares as a string or a float and the
right operand fails to coerce, `!=` yields true and every other comparison
operator propagates the coercion error; for a bool left operand this holds
only for `==` and `!=` (the only operators in the bool table), while the
ordering operators return a TypeError naming the left operand's bool type
before the right operand is ever coerced. -/
theorem comparison_mismatch_amended :
    (∀ (op : ArithmeticOperator) (strFn : String → String → Bool) (s : String) (r : Value)
        (e : EvalErr), compareStrFn op = some strFn → IGetString r = .error e →
      compareOpFn op (.vString s) r =
        if op = .neq then .ok (.vBool true) else .error e) ∧
    (∀ (op : ArithmeticOperator) (numFn : Rat → Rat → Bool) (q : Rat) (r : Value)
        (e : EvalErr), compareNumFn op = some numFn → IGetNumber r = .error e →
      compareOpFn op (.vFloat q) r =
        if op = .neq then .ok (.vBool true) else .error e) ∧
    (∀ (op : ArithmeticOperator) (boolFn : Bool → Bool → Bool) (b : Bool) (r : Value)
        (e : EvalErr), compareBoolFn op = some boolFn → IGetBool r = .error e →
      compareOpFn op (.vBool b) r =
        if op = .neq then .ok (.vBool true) else .error e) ∧
    (∀ (op : ArithmeticOperator) (b : Bool) (r : Value),
      op = .gt ∨ op = .gte ∨ op = .lt ∨ op = .lte →
      compareOpFn op (.vBool b) r = .error (.typeError .bool [])) := by
  refine ⟨fun op strFn s r e h1 h2 => ?_, fun op numFn q r e h1 h2 => ?_,
    fun op boolFn b r e h1 h2 => ?_, fun op b r hop => ?_⟩
  · show (match compareStrFn op with
      | none => Except.error (NewTypeError (Value.vString s) [])
      | some strOpFn =>
        match IGetString r with
        | .error err => if op = ArithmeticOperator.neq then Except.ok (Value.vBool true) else Except.error err
        | .ok rhs => Except.ok (Value.vBool (strOpFn s rhs))) = _
    rw [h1, h2]
  · show (match compareNumFn op with
      | none => Except.error (NewTypeError (Value.vFloat q) [])
      | some numOpFn =>
        match IGetNumber r with
        | .error err => if op = ArithmeticOperator.neq then Except.ok (Value.vBool true) else Except.error err
        | .ok rhs => Except.ok (Value.vBool (numOpFn q rhs))) = _
    rw [h1, h2]
  · show (match compareBoolFn op with
      | none => Except.error (NewTypeError (Value.vBool b) [])
      | some boolOpFn =>
        match IGetBool r with
        | .error err => if op = ArithmeticOperator.neq then Except.ok (Value.vBool true) else Except.error err
        | .ok rhs => Except.ok (Value.vBool (boolOpFn b rhs))) = _
    rw [h1, h2]
  · rcases hop with rfl | rfl | rfl | rfl <;> rfl

/-- C4 witness: `"foo" > 5` propagates the string-coercion TypeError,
`"foo" != 5` is true, and `true > "x"` is the left-operand TypeError of the
amended bool case. -/
theorem comparison_mismatch_amended_witness :
    compareOpFn .gt (.vString "foo") (.vInt 5) = .error (.typeError .number [.string]) ∧
    compareOpFn .neq (.vString "foo") (.vInt 5) = .ok (.vBool true) ∧
    compareOpFn .gt (.vBool true) (.vString "x") = .error (.typeError .bool []) := by
  refine ⟨?_, ?_, ?_⟩
  · have h := comparison_mismatch_amended.1 .gt (fun lhs rhs => rhs < lhs) "foo" (.vInt 5)
      (.typeError .number [.string]) rfl rfl
    rw [if_neg (by decide)] at h
    exact h
  · have h := comparison_mismatch_amended.1 .neq (fun lhs rhs => lhs != rhs) "foo" (.vInt 5)
      (.typeError .number [.string]) rfl rfl
    rw [if_pos rfl] at h
    exact h
  · exact comparison_mismatch_amended.2.2.2 .gt true (.vString "x") (Or.inl rfl)

/-- Structure of a builder-built `ArgSpec`: `n` counts the registered slots
and the validators are the slots enumerated from the starting index. -/
theorem buildArgSpec_foldl (ks : List ArgKind) : ∀ (a : ArgSpec),
    (ks.foldl ArgSpec.addVar a).n = a.n + ks.length ∧
    (ks.foldl ArgSpec.addVar a).validators =
      a.validators ++ (List.range' a.n ks.length).zip ks := by
  induction ks with
  | nil => intro a; simp
  | cons k ks ih =>
    intro a
    have h := ih (a.addVar k)
    refine ⟨?_, ?_⟩
    · rw [List.foldl_cons, h.1]
      simp [ArgSpec.addVar]
      omega
    · rw [List.foldl_cons, h.2]
      simp [ArgSpec.addVar, List.range'_succ]

/-- Running enumerated validators over `pre ++ suf` when every extraction of
the `suf` slots succeeds yields exactly the extracted values. -/
theorem runValidators_all_ok (ks : List ArgKind) :
    ∀ (pre suf : List Value) (outs : List ArgValue),
      suf.length = ks.length →
      List.Forall₂ (fun (kv : ArgKind × Value) out => extractArg kv.1 kv.2 = .ok out)
        (ks.zip suf) outs →
      runValidators ((List.range' pre.length ks.length).zip ks) (pre ++ suf) = .ok outs := by
  induction ks with
  | nil =>
    intro pre suf outs hlen hf
    have hs : suf = [] := List.length_eq_zero.mp hlen
    subst hs
    cases hf
    rfl
  | cons k ks ih =>
    intro pre suf outs hlen hf
    cases suf with
    | nil => simp at hlen
    | cons v vs =>
      rw [List.zip_cons_cons] at hf
      cases hf with
      | cons hhead htail =>
        have hg : (pre ++ (v :: vs)).getD pre.length Value.vNull = v := by
          rw [List.getD_append_right pre (v :: vs) Value.vNull pre.length (le_refl _)]
          simp
        have hih := ih (pre ++ [v]) vs _ (by simpa using hlen) htail
        rw [List.length_append, List.length_singleton] at hih
        rw [List.append_assoc] at hih
        simp only [List.singleton_append] at hih
        simp only [List.length_cons, List.range'_succ, List.zip_cons_cons, runValidators,
          hg, hhead]
        have hz : List.zipWith Prod.mk (List.range' (pre.length + 1) ks.length) ks =
            (List.range' (pre.length + 1) ks.length).zip ks := rfl
        rw [hz, hih]

/-- Running enumerated validators over `pre ++ suf`: the first failing slot
aborts with its absolute 0-based index. -/
theorem runValidators_first_err (ks : List ArgKind) :
    ∀ (pre suf : List Value) (good : List (ArgKind × Value)) (k : ArgKind) (v : Value)
      (rest : List (ArgKind × Value)) (e : EvalErr),
      suf.length = ks.length →
      ks.zip suf = good ++ (k, v) :: rest →
      (∀ p ∈ good, ∃ out, extractArg p.1 p.2 = .ok out) →
      extractArg k v = .error e →
      runValidators ((List.range' pre.length ks.length).zip ks) (pre ++ suf) =
        .error (.badArg (pre.length + good.length) e) := by
  induction ks with
  | nil =>
    intro pre suf good k v rest e hlen hzip hgood herr
    have hs : suf = [] := List.length_eq_zero.mp hlen
    subst hs
    simp at hzip
  | cons kk ks ih =>
    intro pre suf good k v rest e hlen hzip hgood herr
    cases suf with
    | nil => simp at hlen
    | cons w vs =>
      rw [List.zip_cons_cons] at hzip
      have hg : (pre ++ (w :: vs)).getD pre.length Value.vNull = w := by
        rw [List.getD_append_right pre (w :: vs) Value.vNull pre.length (le_refl _)]
        simp
      cases good with
      | nil =>
        rw [List.nil_append] at hzip
        have hk : kk = k := (Prod.mk.injEq _ _ _ _).mp (List.head_eq_of_cons_eq hzip) |>.1
        have hv : w = v := (Prod.mk.injEq _ _ _ _).mp (List.head_eq_of_cons_eq hzip) |>.2
        subst hk
        subst hv
        simp only [List.length_cons, List.range'_succ, List.zip_cons_cons, runValidators,
          hg, herr, List.length_nil, Nat.add_zero]
      | cons g good2 =>
        have hghead : g = (kk, w) := (List.head_eq_of_cons_eq hzip).symm
        have hztail : ks.zip vs = good2 ++ (k, v) :: rest := List.tail_eq_of_cons_eq hzip
        obtain ⟨out, hout⟩ := hgood g (List.mem_cons_self g good2)
        subst hghead
        have hih := ih (pre ++ [w]) vs good2 k v rest e (by simpa using hlen) hztail
          (fun p hp => hgood p (List.mem_cons_of_mem _ hp)) herr
        rw [List.length_append, List.length_singleton] at hih
        rw [List.append_assoc] at hih
        simp only [List.singleton_append] at hih
        simp only [List.length_cons, List.range'_succ, List.zip_cons_cons, runValidators,
          hg, hout]
        have hz : List.zipWith Prod.mk (List.range' (pre.length + 1) ks.length) ks =
            (List.range' (pre.length + 1) ks.length).zip ks := rfl
        rw [hz, hih]
        have : pre.length + 1 + good2.length = pre.length + (good2.length + 1) := by omega
        rw [this]

/-- C8: for a builder-built `ArgSpec` with N registered slots, `Extract`
fails with the arity error naming N and the received count when the argument
count differs; otherwise the first slot whose typed extraction fails aborts
with that slot's 0-based index wrapping the cause; otherwise every slot
receives its extracted value. -/
theorem argspec_extract_spec :
    (∀ (ks : List ArgKind) (args : List Value), args.length ≠ ks.length →
      (buildArgSpec ks).Extract args = .error (.arity ks.length args.length)) ∧
    (∀ (ks : List ArgKind) (args : List Value) (outs : List ArgValue),
      args.length = ks.length →
      List.Forall₂ (fun (kv : ArgKind × Value) out => extractArg kv.1 kv.2 = .ok out)
        (ks.zip args) outs →
      (buildArgSpec ks).Extract args = .ok outs) ∧
    (∀ (ks : List ArgKind) (args : List Value) (good : List (ArgKind × Value)) (k : ArgKind)
        (v : Value) (rest : List (ArgKind × Value)) (e : EvalErr),
      args.length = ks.length →
      ks.zip args = good ++ (k, v) :: rest →
      (∀ p ∈ good, ∃ out, extractArg p.1 p.2 = .ok out) →
      extractArg k v = .error e →
      (buildArgSpec ks).Extract args = .error (.badArg good.length e)) := by
  have hb : ∀ ks : List ArgKind, (buildArgSpec ks).n = ks.length ∧
      (buildArgSpec ks).validators = (List.range' 0 ks.length).zip ks := by
    intro ks
    have h := buildArgSpec_foldl ks NewArgSpec
    simpa [buildArgSpec, NewArgSpec] using h
  refine ⟨fun ks args hne => ?_, fun ks args outs hlen hf => ?_,
    fun ks args good k v rest e hlen hzip hgood herr => ?_⟩
  · simp only [ArgSpec.Extract, (hb ks).1]
    rw [if_pos hne]
  · simp only [ArgSpec.Extract, (hb ks).1, (hb ks).2]
    rw [if_neg (fun hc => hc hlen)]
    have h := runValidators_all_ok ks [] args outs hlen hf
    simpa using h
  · simp only [ArgSpec.Extract, (hb ks).1, (hb ks).2]
    rw [if_neg (fun hc => hc hlen)]
    have h := runValidators_first_err ks [] args good k v rest e hlen hzip hgood herr
    simpa using h

/-- C8 witness: a two-slot spec (int64 then string): wrong arity on an empty
argument list, full extraction on `[3, "a"]`, and the 0-based index 1 with
the string TypeError on `[3, 9]`. -/
theorem argspec_extract_spec_witness :
    (buildArgSpec [.int64Arg, .stringArg]).Extract [] = .error (.arity 2 0) ∧
    (buildArgSpec [.int64Arg, .stringArg]).Extract [.vInt 3, .vString "a"] =
      .ok [.ofInt 3, .ofString "a"] ∧
    (buildArgSpec [.int64Arg, .stringArg]).Extract [.vInt 3, .vInt 9] =
      .error (.badArg 1 (.typeError .number [.string])) := by
  refine ⟨?_, ?_, ?_⟩
  · exact argspec_extract_spec.1 [.int64Arg, .stringArg] [] (by decide)
  · refine argspec_extract_spec.2.1 [.int64Arg, .stringArg] [.vInt 3, .vString "a"]
      [.ofInt 3, .ofString "a"] rfl ?_
    exact List.Forall₂.cons rfl (List.Forall₂.cons rfl List.Forall₂.nil)
  · refine argspec_extract_spec.2.2 [.int64Arg, .stringArg] [.vInt 3, .vInt 9]
      [(.int64Arg, .vInt 3)] .stringArg (.vInt 9) [] (.typeError .number [.string]) rfl rfl
      ?_ rfl
    intro p hp
    have hp2 : p = (.int64Arg, .vInt 3) := List.mem_singleton.mp hp
    subst hp2
    exact ⟨.ofInt 3, rfl⟩

/-- The statement loop distributes over list append. -/
theorem runStatements_append (orig : MsgPart) (index : Nat) :
    ∀ (xs ys : List MapStatement) (pend : Pending),
      runStatements orig index pend (xs ++ ys) =
        match runStatements orig index pend xs with
        | .error e => .error e
        | .ok pend2 => runStatements orig index pend2 ys := by
  intro xs
  induction xs with
  | nil => intro ys pend; rfl
  | cons st xs ih =>
    intro ys pend
    cases h : Function.exec st.query
        { index := index, vars := pend.vars, value := some orig.content } with
    | error e => simp [runStatements, h]
    | ok v =>
      cases h2 : applyAssignment st.line st.target v pend with
      | error e => simp [runStatements, h, h2]
      | ok pend2 => simp [runStatements, h, h2, ih]

/-- Applying a statement whose destination is not the root JSON target never
changes the pending root-deletion mark: nested JSON writes touch only the
payload tree, metadata and variable writes touch only their bags. -/
theorem applyAssignment_preserves_deleted :
    ∀ (line : Nat) (target : Assignment) (v : Value) (pend pend2 : Pending),
      target ≠ Assignment.jsonTarget [] →
      applyAssignment line target v pend = .ok pend2 →
      pend2.deleted = pend.deleted := by
  intro line target v pend pend2 hne h
  cases target with
  | jsonTarget path =>
    cases path with
    | nil => exact absurd rfl hne
    | cons k rest =>
      cases v <;> (dsimp only [applyAssignment] at h; injection h with h2; subst h2; rfl)
  | metaTarget key =>
    cases key with
    | none =>
      cases v <;> dsimp only [applyAssignment] at h <;>
        first
          | (injection h with h2; subst h2; rfl)
          | exact Except.noConfusion h
    | some k =>
      cases v <;> (dsimp only [applyAssignment] at h; injection h with h2; subst h2; rfl)
  | varTarget name =>
    cases v <;> (dsimp only [applyAssignment] at h; injection h with h2; subst h2; rfl)

/-- Running any list of statements none of which targets the root JSON
destination preserves the pending root-deletion mark. -/
theorem runStatements_nonroot_preserves_deleted :
    ∀ (suf : List MapStatement) (orig : MsgPart) (index : Nat) (pend pend2 : Pending),
      (∀ st ∈ suf, st.target ≠ Assignment.jsonTarget []) →
      runStatements orig index pend suf = .ok pend2 →
      pend2.deleted = pend.deleted := by
  intro suf
  induction suf with
  | nil =>
    intro orig index pend pend2 _ h
    injection h with h2
    subst h2
    rfl
  | cons st suf ih =>
    intro orig index pend pend2 hall h
    cases hq : Function.exec st.query
        { index := index, vars := pend.vars, value := some orig.content } with
    | error e =>
      rw [runStatements, hq] at h
      exact Except.noConfusion h
    | ok v =>
      rw [runStatements, hq] at h
      dsimp only at h
      cases ha : applyAssignment st.line st.target v pend with
      | error e =>
        rw [ha] at h
        exact Except.noConfusion h
      | ok pmid =>
        rw [ha] at h
        dsimp only at h
        have h1 := ih orig index pmid pend2 (fun s hs => hall s (List.mem_cons_of_mem st hs)) h
        have h2 := applyAssignment_preserves_deleted st.line st.target v pend pmid
          (hall st (List.mem_cons_self st suf)) ha
        rw [h1, h2]

/-- C1: when a mapping assigns the Delete sentinel to the root JSON target
and no later statement writes to the root (every later statement has a
metadata, variable, or nested-JSON destination), a successful `MapPart`
returns no output part at all. -/
theorem root_delete_annihilation :
    ∀ (pre suf : List MapStatement) (line index : Nat) (batch : List MsgPart)
      (r : Option MsgPart),
      (∀ st ∈ suf, st.target ≠ Assignment.jsonTarget []) →
      MapPart (pre ++ ⟨line, .jsonTarget [], NewLiteralFunction .vDelete⟩ :: suf)
          index batch = .ok r →
      r = none := by
  intro pre suf line index batch r hsuf h
  cases hb : batch.get? index with
  | none => rw [MapPart, hb] at h; exact Except.noConfusion h
  | some part =>
    rw [MapPart, hb] at h
    dsimp only at h
    rw [show (pre ++ ⟨line, .jsonTarget [], NewLiteralFunction .vDelete⟩ :: suf :
        List MapStatement) =
      pre ++ (⟨line, .jsonTarget [], NewLiteralFunction .vDelete⟩ :: suf) from rfl,
      runStatements_append] at h
    cases hrun : runStatements part index ⟨part.content, false, part.meta, []⟩ pre with
    | error e => rw [hrun] at h; exact Except.noConfusion h
    | ok pend1 =>
      rw [hrun] at h
      dsimp only at h
      have hstep : runStatements part index pend1
          (⟨line, .jsonTarget [], NewLiteralFunction .vDelete⟩ :: suf) =
          runStatements part index { pend1 with deleted := true } suf := rfl
      rw [hstep] at h
      cases hs : runStatements part index { pend1 with deleted := true } suf with
      | error e => rw [hs] at h; exact Except.noConfusion h
      | ok pend2 =>
        rw [hs] at h
        dsimp only at h
        have hdel : pend2.deleted = true :=
          runStatements_nonroot_preserves_deleted suf part index
            { pend1 with deleted := true } pend2 hsuf hs
        have hm : materialize pend2 = none := by
          rw [materialize, hdel]
          rfl
        rw [hm] at h
        exact (Except.ok.inj h).symm

/-- C1 witness: the "delete root" scenario of the executor test extended with
a trailing metadata write (which is not a root write): the part is still
deleted. -/
theorem root_delete_annihilation_witness :
    MapPart [⟨0, .jsonTarget [], NewLiteralFunction .vDelete⟩,
        ⟨1, .metaTarget (some "foo"), NewLiteralFunction (.vString "bar")⟩] 0
        [⟨.vObject [("bar", .vString "test1"), ("zed", .vString "gone")], []⟩] =
      .ok none ∧
    (none : Option MsgPart) = none := by
  constructor
  · rfl
  · refine root_delete_annihilation []
      [⟨1, .metaTarget (some "foo"), NewLiteralFunction (.vString "bar")⟩] 0 0
      [⟨.vObject [("bar", .vString "test1"), ("zed", .vString "gone")], []⟩] none ?_ rfl
    intro st hst
    rw [List.mem_singleton] at hst
    subst hst
    exact fun hc => Assignment.noConfusion hc
